import Mathlib

/-!
# Verification of the Todo CRUD core (orpc-sample)

Shallow embedding of the Todo data model, the derived-view helpers
(`src/features/todos/helpers/todoHelpers.ts`), the raw-SQL PostgreSQL
`TodoStore` (the `TodoStore` class whose SQL runs against the schema and
trigger of `docker/init.sql`), the Drizzle/SQLite `TodoStore`
(`src/features/todos/api/store.ts`, table in `src/db/schema.ts`), and the
zod input schemas. JS strings are modelled as Lean `String`, with
kernel-computable models `jsTrim`, `jsLength`, `jsToLower`, `strIncludes`
of the JS string operations the code uses.
Timestamps are `Nat` (one wall-clock reading `now` is
passed to each operation, per the spec's time model). The database's id
generation (`uuid_generate_v4()` / `crypto.randomUUID()`) is modelled as a
fresh counter `nextId`; the ghost field `issued` records every id ever
issued, so uniqueness against deleted records is expressible.
-/

/-- The Todo record as it appears at the operation surface and in the
`todos` table. `description` is `Option String`: `none` models SQL NULL /
JS `undefined`. -/
structure Todo where
  id : Nat
  title : String
  description : Option String
  completed : Bool
  createdAt : Nat
  updatedAt : Nat
deriving DecidableEq, Repr

/-- Filter argument of `filterTodos` (`{completed?: boolean, search?: string}`). -/
structure TodoFilter where
  completed : Option Bool
  search : Option String
deriving DecidableEq, Repr

/-- JS whitespace test for `String.prototype.trim` (space, tab, newline,
carriage return — the whitespace actually occurring in this repository). -/
def jsIsWhitespace (c : Char) : Bool :=
  c = ' ' || c = '\t' || c = '\n' || c = '\r'

/-- JS `s.trim()`: strip leading and trailing whitespace. Defined on the
character list so that it evaluates inside the kernel. -/
def jsTrim (s : String) : String :=
  ⟨((s.data.dropWhile jsIsWhitespace).reverse.dropWhile jsIsWhitespace).reverse⟩

/-- JS `s.length`: the number of code units; equal to the number of
characters for the (ASCII) strings this development evaluates. -/
def jsLength (s : String) : Nat :=
  s.data.length

/-- Lower-casing of one character; ASCII fragment of JS `toLowerCase`
(sufficient for every string the repository compares). -/
def jsCharToLower (c : Char) : Char :=
  if 'A' ≤ c && c ≤ 'Z' then Char.ofNat (c.toNat + 32) else c

/-- JS `s.toLowerCase()`, ASCII fragment, kernel-computable. -/
def jsToLower (s : String) : String :=
  ⟨s.data.map jsCharToLower⟩

/-- JS `s.includes(pat)`: `pat` occurs as a contiguous substring of `s`. -/
def strIncludes (s pat : String) : Bool :=
  decide (pat.data <:+: s.data)

/--
`filterTodos` from `todoHelpers.ts` (lines 47-71), field for field:

* `if (filter.completed !== undefined && todo.completed !== filter.completed) return false`
* `if (filter.search) { const search = filter.search.toLowerCase();
     return todo.title.toLowerCase().includes(search) ||
            todo.description?.toLowerCase().includes(search) }`
  (`filter.search` is truthy exactly when present and non-empty; an absent
  `description` makes the optional chain yield `undefined`, which is falsy)
* `return true`
-/
def filterTodos (todos : List Todo) (filter : TodoFilter) : List Todo :=
  todos.filter fun todo =>
    if (match filter.completed with
        | some c => todo.completed != c
        | none => false) then
      false
    else
      match filter.search with
      | some s =>
          if s = "" then true
          else
            (strIncludes (jsToLower todo.title) (jsToLower s) ||
              (match todo.description with
               | some d => strIncludes (jsToLower d) (jsToLower s)
               | none => false))
      | none => true

/-- The keep-predicate exactly as the specification words it: when
`completed` is specified the record's flag equals it, AND, when `search` is
specified and non-empty, the title or description contains the search
string case-insensitively; an absent description never matches. -/
def specKeep (filter : TodoFilter) (todo : Todo) : Bool :=
  (match filter.completed with
   | some c => todo.completed == c
   | none => true) &&
  (match filter.search with
   | some s =>
       if s = "" then true
       else
         strIncludes (jsToLower todo.title) (jsToLower s) ||
           (match todo.description with
            | some d => strIncludes (jsToLower d) (jsToLower s)
            | none => false)
   | none => true)

/-- Statistics record returned by `calculateTodoStats`. -/
structure TodoStats where
  total : Nat
  completed : Nat
  pending : Nat
  completionRate : Nat
deriving DecidableEq, Repr

/-- Round-half-up of the nonnegative rational `num / den`:
`⌊num/den + 1/2⌋ = (2*num + den) / (2*den)` in `Nat` arithmetic. This is
the value ES `Math.round` assigns to a nonnegative argument, applied to
the **exact** value of its input (the ES spec defines `Math.round`
mathematically on the argument's value, not via float addition of `0.5`).
Applied directly to the exact rational `100*completed/total` it is the
rounding the specification describes — which the code does **not**
compute, see `calculateTodoStats`. -/
def roundHalfUp (num den : Nat) : Nat :=
  (2 * num + den) / (2 * den)

/-- Smallest `s` with `num * 2^s ≥ bound` (`num > 0`); exact whenever
`fuel ≥` that `s`, which every call below guarantees. Used to normalize a
positive rational into the binary64 significand range. -/
def shiftUntilGE (fuel num bound : Nat) : Nat :=
  match fuel with
  | 0 => 0
  | fuel + 1 => if bound ≤ num then 0 else shiftUntilGE fuel (2 * num) bound + 1

/-- `N / D` rounded to the nearest integer, ties to even — the IEEE-754
round-to-nearest-even step on an exact quotient. -/
def rneDiv (N D : Nat) : Nat :=
  let q := N / D
  let r := N % D
  if 2 * r < D then q
  else if D < 2 * r then q + 1
  else if q % 2 = 0 then q else q + 1

/-- The IEEE-754 binary64 value nearest to the nonnegative rational
`num / den` (`den > 0`), returned as a dyadic pair `(m, k)` with value
`m / 2^k`: the quotient is scaled into the 53-bit significand range
`[2^52, 2^53)` and rounded to nearest, ties to even. Exact for every
value in the normal finite range below `2^53` — all values produced by
`calculateTodoStats` lie in `[0, 101]`. (`fuel = den + 60` always covers
the needed scaling: `num ≥ 1` forces `s ≤ 52 + log2 den + 1`.) -/
def flDyadic (num den : Nat) : Nat × Nat :=
  if num = 0 then (0, 0)
  else
    let s := shiftUntilGE (den + 60) num (2 ^ 52 * den)
    (rneDiv (num * 2 ^ s) den, s)

/-- JS `Math.round((completed / total) * 100)` evaluated the way the
program evaluates it, in IEEE-754 binary64: the division rounds to the
nearest double, the multiplication by (exactly representable) `100`
rounds the exact product to the nearest double, and `Math.round` then
rounds the exact value of that double half-up. For `completed = 23`,
`total = 40` this yields `57`, one below the exact-rational
`roundHalfUp (100*23) 40 = 58`, because `23/40` rounds to a double
slightly below `0.575`. -/
def jsPercentRound (completed total : Nat) : Nat :=
  let quotient := flDyadic completed total
  let product := flDyadic (100 * quotient.1) (2 ^ quotient.2)
  roundHalfUp product.1 (2 ^ product.2)

/--
`calculateTodoStats` from `todoHelpers.ts` (lines 7-24):
`total = todos.length`, `completed = todos.filter(t => t.completed).length`,
`pending = total - completed`,
`completionRate = total > 0 ? Math.round((completed / total) * 100) : 0`,
with `Math.round((completed / total) * 100)` modelled bit-exactly over
binary64 by `jsPercentRound`.
-/
def calculateTodoStats (todos : List Todo) : TodoStats :=
  let total := todos.length
  let completed := (todos.filter fun todo => todo.completed).length
  let pending := total - completed
  let completionRate := if total > 0 then jsPercentRound completed total else 0
  ⟨total, completed, pending, completionRate⟩

/-- `groupTodosByStatus` from `todoHelpers.ts` (lines 118-126). -/
def groupTodosByStatus (todos : List Todo) : List Todo × List Todo :=
  (todos.filter fun todo => todo.completed,
   todos.filter fun todo => !todo.completed)

/-- Result of `validateTodoInput`: `{isValid, errors}`. -/
structure ValidationResult where
  isValid : Bool
  errors : List String
deriving DecidableEq, Repr

/--
`validateTodoInput` from `todoHelpers.ts` (lines 132-155):

* `if (!input.title || input.title.trim().length === 0) errors.push('タイトルは必須です')`
  (`!input.title` is true for `undefined` and for `""`)
* `else if (input.title.length > 100) errors.push('タイトルは100文字以内で入力してください')`
  — note: the **untrimmed** length is checked
* `if (input.description && input.description.length > 500) errors.push('説明は500文字以内で入力してください')`
  (`input.description &&` skips the check for `undefined` and `""`)
* `isValid: errors.length === 0`
-/
def validateTodoInput (title description : Option String) : ValidationResult :=
  let titleErrors : List String :=
    match title with
    | none => ["タイトルは必須です"]
    | some t =>
        if t = "" || jsLength (jsTrim t) = 0 then ["タイトルは必須です"]
        else if jsLength t > 100 then ["タイトルは100文字以内で入力してください"]
        else []
  let descErrors : List String :=
    match description with
    | some d => if d ≠ "" && jsLength d > 500 then ["説明は500文字以内で入力してください"] else []
    | none => []
  ⟨(titleErrors ++ descErrors).isEmpty, titleErrors ++ descErrors⟩

/-- Input of the create operation. Mirrors `CreateTodoInput =
Omit<NewTodo, 'id' | 'createdAt' | 'updatedAt'>` (types/todo.ts): `title`
required, `description` and `completed` optional. -/
structure CreateTodoInput where
  title : String
  description : Option String
  completed : Option Bool
deriving DecidableEq, Repr

/-- Input of the update operation (`UpdateTodoInput` / `UpdateTodoSchema`):
every field optional. -/
structure UpdateTodoInput where
  title : Option String
  description : Option String
  completed : Option Bool
deriving DecidableEq, Repr

/-- The live router's create input validation, `CreateTodoSchema =
insertTodoSchema.omit({id, createdAt, updatedAt})` (types/todo.ts and
db/schema.ts): `title: z.string().min(1).max(255)`,
`description: z.string().max(1000).optional()`, `completed` optional
boolean (inherited from the insert schema of the `todos` table). No
trimming is applied by the schema. -/
def createTodoSchemaAccepts (input : CreateTodoInput) : Bool :=
  1 ≤ jsLength input.title && jsLength input.title ≤ 255 &&
    (match input.description with
     | some d => jsLength d ≤ 1000
     | none => true)

/-- State of the `todos` table together with the id generator.
`rows` holds the stored records in insertion order (reusing `Todo` as the
row type; `description = none` is SQL NULL). `nextId` models the id
generator (`uuid_generate_v4()` / `crypto.randomUUID()` abstracted as a
fresh counter), and the ghost field `issued` records every id ever issued,
so that freshness against since-deleted records can be stated. -/
structure StoreState where
  rows : List Todo
  nextId : Nat
  issued : List Nat
deriving DecidableEq, Repr

/-- The empty store. -/
def emptyStore : StoreState := ⟨[], 0, []⟩

/-- The row-to-result mapping every read path of the PostgreSQL
`TodoStore` applies: `description: row.description || undefined` — SQL
NULL **and** the empty string both become an absent description. All other
fields are returned as stored. -/
def viewRow (r : Todo) : Todo :=
  { r with description := match r.description with
                          | some "" => none
                          | d => d }

/-- `TodoStore.getById` (PostgreSQL store): `SELECT ... WHERE id = $1`,
`null` when no row matches, otherwise the row through the
`row.description || undefined` mapping. -/
def pgGetById (s : StoreState) (id : Nat) : Option Todo :=
  (s.rows.find? fun r => r.id == id).map viewRow

/-- `TodoStore.create` (PostgreSQL store):
`INSERT INTO todos (title, description) VALUES ($1, $2)` with
`$2 = input.description || null` (so an empty-string description is stored
as NULL). `completed`, `created_at`, `updated_at` and `id` take their
column defaults (`FALSE`, `NOW()`, `NOW()`, a fresh uuid); `NOW()` is the
single per-operation clock reading `now`. `input.completed` is ignored.
Returns the inserted row through the read mapping. -/
def pgCreate (s : StoreState) (input : CreateTodoInput) (now : Nat) :
    StoreState × Todo :=
  let row : Todo :=
    { id := s.nextId
      title := input.title
      description := match input.description with
                     | some "" => none
                     | d => d
      completed := false
      createdAt := now
      updatedAt := now }
  (⟨s.rows ++ [row], s.nextId + 1, s.issued ++ [s.nextId]⟩, viewRow row)

/-- `TodoStore.create` (Drizzle/SQLite store, `api/store.ts`):
`db.insert(todos).values(input).returning()`. Every provided field is
stored as given (including `completed`, forwarded e.g. by
`createTodoAction` as `data.completed || false`); missing fields take the
column defaults of `db/schema.ts` (`completed` false, both timestamps the
per-statement clock reading). The returned row is **not** passed through
any description mapping. -/
def drizzleCreate (s : StoreState) (input : CreateTodoInput) (now : Nat) :
    StoreState × Todo :=
  let row : Todo :=
    { id := s.nextId
      title := input.title
      description := input.description
      completed := input.completed.getD false
      createdAt := now
      updatedAt := now }
  (⟨s.rows ++ [row], s.nextId + 1, s.issued ++ [s.nextId]⟩, row)

/-- Does the update input contain at least one recognized field?
(`updates.length === 0` test of `TodoStore.update`.) -/
def hasRecognizedField (input : UpdateTodoInput) : Bool :=
  input.title.isSome || input.description.isSome || input.completed.isSome

/-- Effect of the generated `UPDATE todos SET ...` statement on the matched
row: each present field is assigned (`description` as
`input.description || ''`, which stores the given string — the empty
string stays the empty string, it does not become NULL), and the
`update_todos_updated_at` trigger of `docker/init.sql` sets
`updated_at = NOW()`. `id` and `created_at` are never assigned. -/
def applyUpdate (input : UpdateTodoInput) (now : Nat) (r : Todo) : Todo :=
  { r with
    title := input.title.getD r.title
    description := match input.description with
                   | none => r.description
                   | some d => some d
    completed := input.completed.getD r.completed
    updatedAt := now }

/-- `TodoStore.update` (PostgreSQL store, `todoHelpers.ts` lines 216-263):
builds `SET` clauses for the fields present in the input; when **no**
recognized field is present it returns `this.getById(id)` without running
any SQL `UPDATE`; otherwise it runs the `UPDATE ... RETURNING` (the trigger
refreshes `updated_at`), returning `null` when no row matched. -/
def pgUpdate (s : StoreState) (id : Nat) (input : UpdateTodoInput)
    (now : Nat) : StoreState × Option Todo :=
  if hasRecognizedField input then
    if s.rows.any (fun r => r.id == id) then
      let newRows := s.rows.map fun r =>
        if r.id == id then applyUpdate input now r else r
      (⟨newRows, s.nextId, s.issued⟩,
        (newRows.find? fun r => r.id == id).map viewRow)
    else (s, none)
  else (s, pgGetById s id)

/-- `TodoStore.delete` (PostgreSQL store): `DELETE FROM todos WHERE id = $1`;
returns `rowCount > 0`, i.e. whether any row matched. Never an error for a
missing id. -/
def pgDelete (s : StoreState) (id : Nat) : StoreState × Bool :=
  (⟨s.rows.filter fun r => !(r.id == id), s.nextId, s.issued⟩,
    s.rows.any fun r => r.id == id)

/-- The `sortBy` argument of `sortTodos`. -/
inductive SortBy where
  | createdAt
  | updatedAt
  | title
  | completed
deriving DecidableEq, Repr

/-- The `order` argument of `sortTodos`. -/
inductive SortOrder where
  | asc
  | desc
deriving DecidableEq, Repr

/-- The comparator body of `sortTodos` on the extracted key values:
`if (aValue < bValue) return order === 'asc' ? -1 : 1;
 if (aValue > bValue) return order === 'asc' ? 1 : -1;
 return 0`. -/
def jsCompare {κ : Type} [LinearOrder κ] (ord : SortOrder) (ka kb : κ) : Int :=
  if ka < kb then match ord with | .asc => -1 | .desc => 1
  else if kb < ka then match ord with | .asc => 1 | .desc => -1
  else 0

/-- The full comparator of `sortTodos`: key extraction per `sortBy`
(`title` through `toLowerCase`, `completed` as a boolean with
`false < true`, the timestamps numerically), then `jsCompare`. -/
def sortKeyCmp (sortBy : SortBy) (ord : SortOrder) (a b : Todo) : Int :=
  match sortBy with
  | .title => jsCompare ord (jsToLower a.title) (jsToLower b.title)
  | .completed => jsCompare ord a.completed b.completed
  | .createdAt => jsCompare ord a.createdAt b.createdAt
  | .updatedAt => jsCompare ord a.updatedAt b.updatedAt

/-- `a` may be placed before `b` by the sort: comparator value `≤ 0`. -/
def todoLE (sortBy : SortBy) (ord : SortOrder) (a b : Todo) : Bool :=
  decide (sortKeyCmp sortBy ord a b ≤ 0)

/-- `sortTodos` from `todoHelpers.ts` (lines 77-112):
`[...todos].sort(comparator)`. ES2019+ `Array.prototype.sort` is required
to be stable, and a stable comparator sort is exactly the stable
`List.mergeSort` with `le a b ↔ comparator(a,b) ≤ 0`. -/
def sortTodos (todos : List Todo) (sortBy : SortBy) (ord : SortOrder) :
    List Todo :=
  todos.mergeSort fun a b => todoLE sortBy ord a b

/-- A heap of JS arrays of todos: used to state the non-mutation claims.
`arrays` maps a reference (array identity) to its contents; references
`≥ next` are unallocated. -/
structure ArrayHeap where
  arrays : Nat → List Todo
  next : Nat

/-- Allocating a fresh JS array with the given contents (an array literal,
a spread `[...xs]`, or the result array of `Array.prototype.filter`). -/
def heapAlloc (h : ArrayHeap) (contents : List Todo) : ArrayHeap × Nat :=
  (⟨fun i => if i = h.next then contents else h.arrays i, h.next + 1⟩, h.next)

/-- Overwriting the contents of an existing array in place
(`Array.prototype.sort` mutates its receiver). -/
def heapWrite (h : ArrayHeap) (ref : Nat) (contents : List Todo) : ArrayHeap :=
  ⟨fun i => if i = ref then contents else h.arrays i, h.next⟩

/-- `sortTodos` at the heap level: `[...todos]` allocates a copy, `.sort`
then sorts that copy in place and returns it; the input array is never
written. -/
def sortTodosHeap (h : ArrayHeap) (ref : Nat) (sortBy : SortBy)
    (ord : SortOrder) : ArrayHeap × Nat :=
  let copied := heapAlloc h (h.arrays ref)
  (heapWrite copied.1 copied.2 (sortTodos (h.arrays ref) sortBy ord),
    copied.2)

/-- `filterTodos` at the heap level: `Array.prototype.filter` allocates a
fresh result array; the input array is never written. -/
def filterTodosHeap (h : ArrayHeap) (ref : Nat) (filter : TodoFilter) :
    ArrayHeap × Nat :=
  heapAlloc h (filterTodos (h.arrays ref) filter)

/-- `groupTodosByStatus` at the heap level: two `filter` calls allocate two
fresh arrays; the input array is never written. -/
def groupTodosByStatusHeap (h : ArrayHeap) (ref : Nat) :
    ArrayHeap × Nat × Nat :=
  let first := heapAlloc h ((h.arrays ref).filter fun todo => todo.completed)
  let second := heapAlloc first.1 ((h.arrays ref).filter fun todo => !todo.completed)
  (second.1, first.2, second.2)

/-- **C7.** For every todo list and filter `{completed?, search?}`,
`filterTodos` keeps a record if and only if: when `completed` is
specified, the record's flag equals it, AND, when `search` is specified
and non-empty, the title or description contains the search string
case-insensitively as a substring — with an absent description never
matching. Stated as: the code's filter equals the filter by the
specification's keep-predicate `specKeep`. -/
theorem filterTodos_keeps_iff_spec (todos : List Todo) (filter : TodoFilter) :
    filterTodos todos filter = todos.filter (specKeep filter) := by
  apply List.filter_congr
  intro todo _
  rcases filter with ⟨oc, os⟩
  rcases oc with _ | c <;> rcases os with _ | s
  · rfl
  · by_cases hs : s = "" <;> simp [specKeep, hs]
  · by_cases hc2 : todo.completed = c <;> simp [specKeep, hc2]
  · by_cases hc2 : todo.completed = c <;> by_cases hs : s = "" <;>
      simp [specKeep, hc2, hs]

/-- Characterization of `shiftUntilGE`: with enough fuel it returns the
unique `s0` with `bound ≤ num * 2^s0` that no smaller shift reaches. -/
theorem shiftUntilGE_eq (fuel : Nat) : ∀ (num bound s0 : Nat), 0 < num →
    bound ≤ num * 2 ^ s0 → (∀ j, j < s0 → num * 2 ^ j < bound) →
    s0 ≤ fuel → shiftUntilGE fuel num bound = s0 := by
  induction fuel with
  | zero =>
      intro num bound s0 _ _ _ hs0
      have : s0 = 0 := by omega
      subst this
      rfl
  | succ fuel ih =>
      intro num bound s0 hnum hge hlt hs0
      by_cases hb : bound ≤ num
      · have hs00 : s0 = 0 := by
          by_contra h
          have h0 : 0 < s0 := Nat.pos_of_ne_zero h
          have h1 := hlt 0 h0
          simp at h1
          omega
        subst hs00
        simp [shiftUntilGE, hb]
      · cases s0 with
        | zero =>
            exfalso
            simp at hge
            omega
        | succ s1 =>
            have hge2 : bound ≤ 2 * num * 2 ^ s1 := by
              have h2 : num * 2 ^ (s1 + 1) = 2 * num * 2 ^ s1 := by ring
              omega
            have hlt2 : ∀ j, j < s1 → 2 * num * 2 ^ j < bound := by
              intro j hj
              have h3 := hlt (j + 1) (by omega)
              have h4 : num * 2 ^ (j + 1) = 2 * num * 2 ^ j := by ring
              omega
            have h5 := ih (2 * num) bound s1 (by omega) hge2 hlt2 (by omega)
            simp [shiftUntilGE, hb, h5]

/-- `total / total` rounds to the double `1` exactly: the scaling shift is
`52` and the scaled quotient `2^52` is exact, so no rounding happens. -/
theorem flDyadic_self (total : Nat) (h : 0 < total) :
    flDyadic total total = (2 ^ 52, 52) := by
  have hs : shiftUntilGE (total + 60) total (2 ^ 52 * total) = 52 := by
    apply shiftUntilGE_eq (total + 60) total (2 ^ 52 * total) 52 h
    · have := Nat.mul_comm (2 ^ 52) total
      omega
    · intro j hj
      have hp : (2 : Nat) ^ j < 2 ^ 52 := Nat.pow_lt_pow_right (by omega) hj
      have h2 : total * 2 ^ j < total * 2 ^ 52 :=
        mul_lt_mul_of_pos_left hp h
      have h3 : total * 2 ^ 52 = 2 ^ 52 * total := Nat.mul_comm _ _
      omega
    · omega
  have hq : total * 2 ^ 52 / total = 2 ^ 52 := Nat.mul_div_cancel_left _ h
  have hr : total * 2 ^ 52 % total = 0 := Nat.mul_mod_right total _
  simp only [flDyadic]
  rw [if_neg (by omega : ¬ total = 0), hs]
  simp [rneDiv, hq, hr, h]

/-- **C9, counterexample.** The program's `completionRate` is **not**
round(100·completed/total) over exact rationals: for 40 todos of which 23
are completed, `(23/40)` rounds to a double slightly below `0.575`,
`(23/40)*100` evaluates to `57.49999999999999289…`, and
`Math.round` returns `57`, while round(100·23/40) = round(57.5) = 58
(under half-up — half-even gives 58 here as well since 57.5 rounds to the
even 58). -/
theorem calculateTodoStats_rate_not_exact_round_counterexample :
    (calculateTodoStats (List.replicate 23 ⟨0, "a", none, true, 0, 0⟩ ++
        List.replicate 17 ⟨0, "a", none, false, 0, 0⟩)).total = 40 ∧
    (calculateTodoStats (List.replicate 23 ⟨0, "a", none, true, 0, 0⟩ ++
        List.replicate 17 ⟨0, "a", none, false, 0, 0⟩)).completed = 23 ∧
    (calculateTodoStats (List.replicate 23 ⟨0, "a", none, true, 0, 0⟩ ++
        List.replicate 17 ⟨0, "a", none, false, 0, 0⟩)).completionRate = 57 ∧
    roundHalfUp (100 * 23) 40 = 58 := by
  refine ⟨by decide, by decide, by decide, by decide⟩

/-- **C9 (as amended).** `calculateTodoStats` returns `total` = the list's
length, `completed` = the number of completed records, `pending = total −
completed` (hence `total = completed + pending` always), and
`completionRate` = `Math.round((completed/total)*100)` evaluated in
IEEE-754 binary64 when `total > 0` — which can land one below the
exact-rational round(100·completed/total) (23 of 40 gives 57, not 58) —
and `0` when `total = 0`; the stats of the empty list are `{0, 0, 0, 0}`,
and a fully completed non-empty list reports exactly `100`. -/
theorem calculateTodoStats_spec (todos : List Todo) :
    (calculateTodoStats todos).total = todos.length ∧
    (calculateTodoStats todos).completed = todos.countP (fun t => t.completed) ∧
    (calculateTodoStats todos).total =
      (calculateTodoStats todos).completed + (calculateTodoStats todos).pending ∧
    calculateTodoStats [] = ⟨0, 0, 0, 0⟩ ∧
    (0 < todos.length →
      (calculateTodoStats todos).completionRate =
        jsPercentRound (calculateTodoStats todos).completed todos.length) ∧
    (todos.length = 0 → (calculateTodoStats todos).completionRate = 0) ∧
    (0 < todos.length →
      (calculateTodoStats todos).completed = todos.length →
      (calculateTodoStats todos).completionRate = 100) := by
  refine ⟨rfl, ?_, ?_, by decide, ?_, ?_, ?_⟩
  · simp [calculateTodoStats, List.countP_eq_length_filter]
  · have hle : (todos.filter fun t => t.completed).length ≤ todos.length :=
      List.length_filter_le _ _
    simp only [calculateTodoStats]
    omega
  · intro hpos
    simp [calculateTodoStats, if_pos hpos]
  · intro hzero
    simp [calculateTodoStats, hzero]
  · intro hpos hall
    have hcomp : (calculateTodoStats todos).completed =
        (todos.filter fun t => t.completed).length := rfl
    have hall2 : (todos.filter fun t => t.completed).length = todos.length := by
      rw [← hcomp]
      exact hall
    have hrate : (calculateTodoStats todos).completionRate =
        jsPercentRound todos.length todos.length := by
      simp [calculateTodoStats, if_pos hpos, hall2]
    rw [hrate]
    simp only [jsPercentRound]
    rw [flDyadic_self todos.length hpos]
    decide

/-- **C6.** `delete id` returns `true` exactly when a record with that id
is present; a missing id yields `success = false` as a normal return
value (the function is total — no error path exists); the deleted record
(and only it) is removed, and a subsequent `getById id` reports NotFound
(`none`). -/
theorem pgDelete_spec (s : StoreState) (id : Nat) :
    ((pgDelete s id).2 = true ↔ ∃ r ∈ s.rows, r.id = id) ∧
    pgGetById (pgDelete s id).1 id = none ∧
    (∀ r ∈ (pgDelete s id).1.rows, r.id ≠ id ∧ r ∈ s.rows) ∧
    (∀ r ∈ s.rows, r.id ≠ id → r ∈ (pgDelete s id).1.rows) := by
  refine ⟨?_, ?_, ?_, ?_⟩
  · simp [pgDelete, List.any_eq_true]
  · have hnone : (s.rows.filter fun r => !(r.id == id)).find?
        (fun r => r.id == id) = none := by
      rw [List.find?_eq_none]
      intro r hr
      have := (List.mem_filter.mp hr).2
      simpa using this
    simp [pgGetById, pgDelete, hnone]
  · intro r hr
    have h := List.mem_filter.mp hr
    refine ⟨by simpa using h.2, h.1⟩
  · intro r hr hne
    exact List.mem_filter.mpr ⟨hr, by simpa using hne⟩

/-- `applyUpdate` preserves the row id, so looking up `id` after the SQL
`UPDATE` finds exactly the updated image of the row found before. -/
theorem find?_map_applyUpdate (l : List Todo) (id : Nat)
    (input : UpdateTodoInput) (now : Nat) :
    (l.map fun r => if r.id == id then applyUpdate input now r else r).find?
        (fun r => r.id == id) =
      (l.find? fun r => r.id == id).map
        (fun r => if r.id == id then applyUpdate input now r else r) := by
  rw [List.find?_map]
  have hpf : ((fun (r : Todo) => r.id == id) ∘
      fun r => if r.id == id then applyUpdate input now r else r) =
      fun r => r.id == id := by
    funext r
    by_cases h : r.id = id <;> simp [applyUpdate, h]
  rw [hpf]

/-- **C1 (as amended).** For a successful `update(id, input)` under a clock
that has not gone backwards: when the input has at least one recognized
field, the returned record's `updatedAt` equals the operation time `now`
(the `update_todos_updated_at` trigger fires even when the assigned values
equal the old ones); when the input has zero recognized fields, the store
is untouched and the call returns the plain `getById` read-back (so
`updatedAt` is retained, not refreshed); in both cases the returned
`updatedAt` never decreases below the stored record's. -/
theorem pgUpdate_updatedAt_spec (s : StoreState) (id : Nat)
    (input : UpdateTodoInput) (now : Nat)
    (hclock : ∀ r ∈ s.rows, r.updatedAt ≤ now) (t : Todo)
    (hres : (pgUpdate s id input now).2 = some t) :
    (hasRecognizedField input = true → t.updatedAt = now) ∧
    (hasRecognizedField input = false →
      (pgUpdate s id input now).1 = s ∧ pgGetById s id = some t) ∧
    ∃ r0, s.rows.find? (fun r => r.id == id) = some r0 ∧
      r0.updatedAt ≤ t.updatedAt ∧ t.updatedAt ≤ now := by
  cases hrf : hasRecognizedField input with
  | false =>
      have hval : (pgUpdate s id input now).2 = pgGetById s id := by
        simp [pgUpdate, hrf]
      have hget : pgGetById s id = some t := hval ▸ hres
      refine ⟨fun h => by simp [hrf] at h,
        fun _ => ⟨by simp [pgUpdate, hrf], hget⟩, ?_⟩
      obtain ⟨r0, hfind, hview⟩ := Option.map_eq_some.mp hget
      have hmem := List.mem_of_find?_eq_some hfind
      have ht : t.updatedAt = r0.updatedAt := by rw [← hview]; rfl
      exact ⟨r0, hfind, by rw [ht], by rw [ht]; exact hclock r0 hmem⟩
  | true =>
      cases hany : s.rows.any (fun r => r.id == id) with
      | false =>
          exfalso
          have : (pgUpdate s id input now).2 = none := by
            simp [pgUpdate, hrf, hany]
          rw [this] at hres
          exact Option.noConfusion hres
      | true =>
          have hval : (pgUpdate s id input now).2 =
              ((s.rows.map fun r =>
                  if r.id == id then applyUpdate input now r else r).find?
                (fun r => r.id == id)).map viewRow := by
            simp [pgUpdate, hrf, hany]
          rw [hval, find?_map_applyUpdate] at hres
          cases hsome : s.rows.find? (fun r => r.id == id) with
          | none =>
              exfalso
              rcases List.any_eq_true.mp hany with ⟨x0, hmem0, hp0⟩
              exact (List.find?_eq_none.mp hsome x0 hmem0) hp0
          | some x =>
              rw [hsome] at hres
              have hpx : x.id = id := by
                simpa using List.find?_some hsome
              have hmem := List.mem_of_find?_eq_some hsome
              simp [hpx] at hres
              have hupd : t = viewRow (applyUpdate input now x) := hres.symm
              refine ⟨fun _ => by simp [hupd, viewRow, applyUpdate],
                fun h => by simp [hrf] at h, ?_⟩
              refine ⟨x, rfl, ?_, ?_⟩ <;>
                simp [hupd, viewRow, applyUpdate, hclock x hmem]

/-- **C5.** For every existing Todo id and every partial update input,
`update(id, input)` never changes the record's `id` or `createdAt`, and
every field absent from the input retains its prior value, both in the
stored row and in the returned record (which is the stored row through the
read mapping); rows with other ids are untouched. -/
theorem pgUpdate_frame_spec (s : StoreState) (id : Nat)
    (input : UpdateTodoInput) (now : Nat) (t : Todo)
    (hres : (pgUpdate s id input now).2 = some t) :
    ∃ r0 r1, s.rows.find? (fun r => r.id == id) = some r0 ∧
      (pgUpdate s id input now).1.rows.find? (fun r => r.id == id) = some r1 ∧
      t = viewRow r1 ∧
      r1.id = r0.id ∧ r1.createdAt = r0.createdAt ∧
      (input.title = none → r1.title = r0.title) ∧
      (input.description = none → r1.description = r0.description) ∧
      (input.completed = none → r1.completed = r0.completed) ∧
      (∀ r ∈ s.rows, r.id ≠ id → r ∈ (pgUpdate s id input now).1.rows) := by
  cases hrf : hasRecognizedField input with
  | false =>
      have hstate : (pgUpdate s id input now).1 = s := by simp [pgUpdate, hrf]
      have hget : pgGetById s id = some t := by
        have hval : (pgUpdate s id input now).2 = pgGetById s id := by
          simp [pgUpdate, hrf]
        exact hval ▸ hres
      obtain ⟨r0, hfind, hview⟩ := Option.map_eq_some.mp hget
      exact ⟨r0, r0, hfind, by rw [hstate]; exact hfind, hview.symm, rfl, rfl,
        fun _ => rfl, fun _ => rfl, fun _ => rfl,
        fun r hr _ => by rw [hstate]; exact hr⟩
  | true =>
      cases hany : s.rows.any (fun r => r.id == id) with
      | false =>
          exfalso
          have : (pgUpdate s id input now).2 = none := by
            simp [pgUpdate, hrf, hany]
          rw [this] at hres
          exact Option.noConfusion hres
      | true =>
          have hval : (pgUpdate s id input now).2 =
              ((s.rows.map fun r =>
                  if r.id == id then applyUpdate input now r else r).find?
                (fun r => r.id == id)).map viewRow := by
            simp [pgUpdate, hrf, hany]
          have hrows : (pgUpdate s id input now).1.rows =
              s.rows.map fun r =>
                if r.id == id then applyUpdate input now r else r := by
            simp [pgUpdate, hrf, hany]
          rw [hval, find?_map_applyUpdate] at hres
          cases hsome : s.rows.find? (fun r => r.id == id) with
          | none =>
              exfalso
              rcases List.any_eq_true.mp hany with ⟨x0, hmem0, hp0⟩
              exact (List.find?_eq_none.mp hsome x0 hmem0) hp0
          | some x =>
              rw [hsome] at hres
              have hpx : x.id = id := by
                simpa using List.find?_some hsome
              have hnew : (pgUpdate s id input now).1.rows.find?
                  (fun r => r.id == id) = some (applyUpdate input now x) := by
                rw [hrows, find?_map_applyUpdate, hsome]
                simp [hpx]
              simp [hpx] at hres
              refine ⟨x, applyUpdate input now x, rfl, hnew, hres.symm,
                rfl, rfl, ?_, ?_, ?_, ?_⟩
              · intro h; simp [applyUpdate, h]
              · intro h; simp [applyUpdate, h]
              · intro h; simp [applyUpdate, h]
              · intro r hr hne
                rw [hrows]
                exact List.mem_map.mpr ⟨r, hr, by simp [hne]⟩

/-- **C1, counterexample.** A concrete successful update whose partial
input contains zero recognized fields does **not** set `updatedAt` to the
operation time: on a store holding one record created at time 0, the
update at time 5 with the empty partial input succeeds and returns
`updatedAt = 0`, not `5` (the cited code returns a plain `getById`
read-back without running any SQL `UPDATE`). -/
theorem pgUpdate_empty_input_keeps_updatedAt_counterexample :
    (pgUpdate (pgCreate emptyStore ⟨"a", none, none⟩ 0).1 0
        ⟨none, none, none⟩ 5).2.map Todo.updatedAt = some 0 ∧ (0 : Nat) ≠ 5 := by
  decide

/-- **C2, counterexample.** No trimming happens before the length checks or
before storage: the live create schema accepts the whitespace-only title
`"   "` (so `create` succeeds — contradicting "fails with a
ValidationError") and the record is stored with the title exactly as
given; moreover `validateTodoInput` rejects a 101-character title whose
trimmed length is 1, showing its length check runs on the untrimmed
string. -/
theorem create_whitespace_title_accepted_counterexample :
    jsTrim "   " = "" ∧
    createTodoSchemaAccepts ⟨"   ", none, none⟩ = true ∧
    (pgCreate emptyStore ⟨"   ", none, none⟩ 0).1.rows.map Todo.title
      = ["   "] ∧
    (drizzleCreate emptyStore ⟨"   ", none, none⟩ 0).1.rows.map Todo.title
      = ["   "] ∧
    (jsLength (jsTrim ⟨'a' :: List.replicate 100 ' '⟩) = 1 ∧
      (validateTodoInput (some ⟨'a' :: List.replicate 100 ' '⟩) none).isValid
        = false) := by
  refine ⟨by decide, by decide, by decide, by decide, by decide, by decide⟩

/-- **C2 (as amended).** `validateTodoInput` rejects every title that is
empty or whitespace-only with the title-field message `タイトルは必須です`
(trimming is applied only for this emptiness test); its length checks use
the untrimmed string, the create schema of the live router
(`z.string().min(1).max(255)`) accepts any title of untrimmed length
1..255 — whitespace-only included — and the store saves the title exactly
as given, untrimmed. -/
theorem validate_rejects_whitespace_title (title : String)
    (h : jsTrim title = "") (s : StoreState) (now : Nat) :
    (validateTodoInput (some title) none).isValid = false ∧
    "タイトルは必須です" ∈ (validateTodoInput (some title) none).errors ∧
    (1 ≤ jsLength title → jsLength title ≤ 255 →
      createTodoSchemaAccepts ⟨title, none, none⟩ = true) ∧
    (pgCreate s ⟨title, none, none⟩ now).2.title = title ∧
    (drizzleCreate s ⟨title, none, none⟩ now).2.title = title := by
  have hlen : jsLength (jsTrim title) = 0 := by rw [h]; rfl
  refine ⟨?_, ?_, ?_, rfl, rfl⟩
  · by_cases he : title = "" <;> simp [validateTodoInput, he, hlen]
  · by_cases he : title = "" <;> simp [validateTodoInput, he, hlen]
  · intro h1 h255
    simp [createTodoSchemaAccepts, h1, h255]

/-- **C3, counterexample.** An empty-string description does **not** read
back as present: creating with `description = ""` stores NULL
(`input.description || null`) and `getById` returns an absent description;
updating an existing record's description to `""` stores `""` but the read
mapping (`row.description || undefined`) returns it as absent as well. -/
theorem description_empty_reads_back_absent_counterexample :
    pgGetById (pgCreate emptyStore ⟨"a", some "", none⟩ 0).1 0
      = some ⟨0, "a", none, false, 0, 0⟩ ∧
    (pgUpdate (pgCreate emptyStore ⟨"a", some "x", none⟩ 0).1 0
        ⟨none, some "", none⟩ 1).2.map Todo.description = some none ∧
    (some "" : Option String) ≠ none := by
  refine ⟨by decide, by decide, by decide⟩

/-- **C3 (as amended).** At the operation surface an empty-string
description is indistinguishable from an absent one: `create` maps `""` to
NULL before storing, every read maps NULL and `""` to absent, so a Todo
created with `description = ""` (or updated to `""`) reads back — via the
returned record and via `getById` — with an **absent** description. -/
theorem description_empty_normalized_to_absent (s : StoreState)
    (input : CreateTodoInput) (now : Nat)
    (hIds : ∀ r ∈ s.rows, r.id < s.nextId)
    (hdesc : input.description = some "") :
    (pgCreate s input now).2.description = none ∧
    pgGetById (pgCreate s input now).1 (pgCreate s input now).2.id =
      some (pgCreate s input now).2 ∧
    (∀ id updInput t, updInput.description = some "" →
      (pgUpdate s id updInput now).2 = some t → t.description = none) := by
  refine ⟨by simp [pgCreate, hdesc, viewRow], ?_, ?_⟩
  · have hold : s.rows.find? (fun r => r.id == s.nextId) = none := by
      rw [List.find?_eq_none]
      intro r hr
      have := hIds r hr
      simp
      omega
    simp [pgCreate, pgGetById, List.find?_append, hold, hdesc, viewRow]
  · intro id updInput t hupd hres
    have hrf : hasRecognizedField updInput = true := by
      simp [hasRecognizedField, hupd]
    cases hany : s.rows.any (fun r => r.id == id) with
    | false =>
        exfalso
        have : (pgUpdate s id updInput now).2 = none := by
          simp [pgUpdate, hrf, hany]
        rw [this] at hres
        exact Option.noConfusion hres
    | true =>
        have hval : (pgUpdate s id updInput now).2 =
            ((s.rows.map fun r =>
                if r.id == id then applyUpdate updInput now r else r).find?
              (fun r => r.id == id)).map viewRow := by
          simp [pgUpdate, hrf, hany]
        rw [hval, find?_map_applyUpdate] at hres
        cases hsome : s.rows.find? (fun r => r.id == id) with
        | none =>
            exfalso
            rcases List.any_eq_true.mp hany with ⟨x0, hmem0, hp0⟩
            exact (List.find?_eq_none.mp hsome x0 hmem0) hp0
        | some x =>
            rw [hsome] at hres
            have hpx : x.id = id := by
              simpa using List.find?_some hsome
            simp [hpx] at hres
            rw [← hres]
            simp [viewRow, applyUpdate, hupd]

/-- **C4, counterexample.** Not every valid create input yields
`completed = false`: the live create schema admits an optional `completed`
(and the repository's own `createTodoAction` forwards it), and the
Drizzle store stores it — so `create({title: "x", completed: true})` is a
valid create that returns `completed = true`. -/
theorem create_completed_true_counterexample :
    createTodoSchemaAccepts ⟨"x", none, some true⟩ = true ∧
    (drizzleCreate emptyStore ⟨"x", none, some true⟩ 0).2.completed = true := by
  refine ⟨by decide, by decide⟩

/-- **C4 (as amended).** For every create input: the PostgreSQL store
(whose `INSERT` never mentions `completed`) always returns
`completed = false`, and the Drizzle store returns `completed = false`
whenever the input does not specify `completed`; in both stores the
returned record has `createdAt = updatedAt` (one clock reading per
operation) and a fresh id different from every previously issued id —
including ids of since-deleted records, because `delete` and `update`
never shrink the set of issued ids. -/
theorem create_defaults_spec (s : StoreState) (input : CreateTodoInput)
    (now : Nat) (hIss : ∀ i ∈ s.issued, i < s.nextId) :
    (pgCreate s input now).2.completed = false ∧
    (pgCreate s input now).2.createdAt = (pgCreate s input now).2.updatedAt ∧
    (pgCreate s input now).2.id ∉ s.issued ∧
    (pgCreate s input now).1.issued = s.issued ++ [(pgCreate s input now).2.id] ∧
    (∀ i ∈ (pgCreate s input now).1.issued, i < (pgCreate s input now).1.nextId) ∧
    (input.completed = none → (drizzleCreate s input now).2.completed = false) ∧
    (drizzleCreate s input now).2.createdAt
      = (drizzleCreate s input now).2.updatedAt ∧
    (drizzleCreate s input now).2.id ∉ s.issued ∧
    (∀ id, (pgDelete s id).1.issued = s.issued ∧
      (pgDelete s id).1.nextId = s.nextId) ∧
    (∀ id updInput, (pgUpdate s id updInput now).1.issued = s.issued ∧
      (pgUpdate s id updInput now).1.nextId = s.nextId) := by
  have hfresh : s.nextId ∉ s.issued := fun hmem => by
    have := hIss s.nextId hmem
    omega
  refine ⟨rfl, rfl, ?_, rfl, ?_, ?_, rfl, ?_, ?_, ?_⟩
  · simpa [pgCreate, viewRow] using hfresh
  · intro i hi
    simp [pgCreate] at hi ⊢
    rcases hi with hi | hi
    · have := hIss i hi
      omega
    · omega
  · intro h
    simp [drizzleCreate, h]
  · simpa [drizzleCreate] using hfresh
  · intro id
    exact ⟨rfl, rfl⟩
  · intro id updInput
    cases hrf : hasRecognizedField updInput with
    | false => simp [pgUpdate, hrf]
    | true =>
        cases hany : s.rows.any (fun r => r.id == id) with
        | false => simp [pgUpdate, hrf, hany]
        | true => simp [pgUpdate, hrf, hany]

/-- The comparator value is `≤ 0` exactly when the first key is `≤` the
second (ascending) or `≥` it (descending). -/
theorem jsCompare_nonpos {κ : Type} [LinearOrder κ] (ord : SortOrder)
    (ka kb : κ) :
    (jsCompare ord ka kb ≤ 0 ↔
      (match ord with | .asc => ka ≤ kb | .desc => kb ≤ ka)) := by
  cases ord <;> unfold jsCompare <;>
    rcases lt_trichotomy ka kb with h | h | h
  · rw [if_pos h]
    exact iff_of_true (by norm_num) h.le
  · subst h
    rw [if_neg (lt_irrefl ka), if_neg (lt_irrefl ka)]
    exact iff_of_true (by norm_num) le_rfl
  · rw [if_neg h.asymm, if_pos h]
    exact iff_of_false (by norm_num) (not_le.mpr h)
  · rw [if_pos h]
    exact iff_of_false (by norm_num) (not_le.mpr h)
  · subst h
    rw [if_neg (lt_irrefl ka), if_neg (lt_irrefl ka)]
    exact iff_of_true (by norm_num) le_rfl
  · rw [if_neg h.asymm, if_pos h]
    exact iff_of_true (by norm_num) h.le

/-- The comparator value is `0` exactly when the keys are equal (for both
orders). -/
theorem jsCompare_eq_zero {κ : Type} [LinearOrder κ] (ord : SortOrder)
    (ka kb : κ) :
    (jsCompare ord ka kb = 0 ↔ ka = kb) := by
  cases ord <;> unfold jsCompare <;>
    rcases lt_trichotomy ka kb with h | h | h
  · rw [if_pos h]
    exact iff_of_false (by norm_num) (ne_of_lt h)
  · subst h
    rw [if_neg (lt_irrefl ka), if_neg (lt_irrefl ka)]
    exact iff_of_true rfl rfl
  · rw [if_neg h.asymm, if_pos h]
    exact iff_of_false (by norm_num) (ne_of_gt h)
  · rw [if_pos h]
    exact iff_of_false (by norm_num) (ne_of_lt h)
  · subst h
    rw [if_neg (lt_irrefl ka), if_neg (lt_irrefl ka)]
    exact iff_of_true rfl rfl
  · rw [if_neg h.asymm, if_pos h]
    exact iff_of_false (by norm_num) (ne_of_gt h)

/-- The before-relation of the sort comparator is transitive. -/
theorem todoLE_trans (sortBy : SortBy) (ord : SortOrder) (a b c : Todo)
    (hab : todoLE sortBy ord a b = true) (hbc : todoLE sortBy ord b c = true) :
    todoLE sortBy ord a c = true := by
  cases sortBy <;> cases ord <;>
    simp only [todoLE, sortKeyCmp, decide_eq_true_eq] at hab hbc ⊢ <;>
    rw [jsCompare_nonpos] at hab hbc ⊢ <;>
    first
      | exact le_trans hab hbc
      | exact le_trans hbc hab

/-- The before-relation of the sort comparator is total. -/
theorem todoLE_total (sortBy : SortBy) (ord : SortOrder) (a b : Todo) :
    todoLE sortBy ord a b || todoLE sortBy ord b a := by
  cases sortBy <;> cases ord <;>
    simp only [todoLE, sortKeyCmp, Bool.or_eq_true, decide_eq_true_eq] <;>
    rw [jsCompare_nonpos, jsCompare_nonpos] <;>
    exact le_total _ _

/-- Two records tied with a common reference record (comparator value `0`)
are tied with each other, in particular the comparator lets either come
first. -/
theorem todoLE_of_tied (sortBy : SortBy) (ord : SortOrder) (t0 a b : Todo)
    (ha : (sortKeyCmp sortBy ord a t0 == 0) = true)
    (hb : (sortKeyCmp sortBy ord b t0 == 0) = true) :
    todoLE sortBy ord a b = true := by
  cases sortBy <;> cases ord <;>
    simp only [sortKeyCmp, beq_iff_eq] at ha hb <;>
    simp only [todoLE, sortKeyCmp, decide_eq_true_eq] <;>
    rw [jsCompare_eq_zero] at ha hb <;>
    rw [jsCompare_nonpos] <;>
    rw [ha, hb]

/-- Stability of `mergeSort` in filter form: the elements satisfying a
predicate on which the comparator never separates come out in exactly
their input order. -/
theorem mergeSort_filter_tied {α : Type} (le : α → α → Bool) (p : α → Bool)
    (l : List α)
    (htrans : ∀ a b c, le a b → le b c → le a c)
    (htotal : ∀ a b, le a b || le b a)
    (htied : ∀ a b, p a = true → p b = true → le a b = true) :
    (l.mergeSort le).filter p = l.filter p := by
  have hpair : (l.filter p).Pairwise (fun a b => le a b = true) :=
    List.pairwise_of_forall_mem_list fun a ha b hb =>
      htied a b (List.of_mem_filter ha) (List.of_mem_filter hb)
  have hsub : List.Sublist (l.filter p) (l.mergeSort le) :=
    List.sublist_mergeSort htrans htotal hpair (List.filter_sublist l)
  have hself : (l.filter p).filter p = l.filter p :=
    List.filter_eq_self.mpr fun a ha => List.of_mem_filter ha
  have hfsub : List.Sublist (l.filter p) ((l.mergeSort le).filter p) := by
    have h5 := hsub.filter p
    rwa [hself] at h5
  have hperm : List.Perm ((l.mergeSort le).filter p) (l.filter p) :=
    (List.mergeSort_perm l le).filter p
  exact (hfsub.eq_of_length hperm.length_eq.symm).symm

/-- **C8 (as amended).** `sortTodos` is stable for every `sortBy` and
`order` (records tied under the comparator keep the input's relative
order, stated in filter form against any reference record); title
comparison is case-insensitive (titles equal after lower-casing are tied,
so records sharing a title case-insensitively keep their original relative
order under both sorts); and sorting by title ascending then descending
exactly reverses the order when the **lower-cased** titles are pairwise
distinct (pairwise-distinct raw titles are not enough — see the
counterexample). -/
theorem sortTodos_stable_and_reverses (l : List Todo) :
    (∀ sortBy ord t0,
      (sortTodos l sortBy ord).filter
          (fun t => sortKeyCmp sortBy ord t t0 == 0)
        = l.filter (fun t => sortKeyCmp sortBy ord t t0 == 0)) ∧
    (∀ ord a b, jsToLower a.title = jsToLower b.title →
      sortKeyCmp .title ord a b = 0) ∧
    ((l.map fun t => jsToLower t.title).Nodup →
      sortTodos (sortTodos l .title .asc) .title .desc
        = (sortTodos l .title .asc).reverse) := by
  refine ⟨?_, ?_, ?_⟩
  · intro sortBy ord t0
    exact mergeSort_filter_tied _ _ l
      (fun a b c => todoLE_trans sortBy ord a b c)
      (fun a b => todoLE_total sortBy ord a b)
      (fun a b => todoLE_of_tied sortBy ord t0 a b)
  · intro ord a b h
    cases ord <;> simp only [sortKeyCmp] <;>
      exact (jsCompare_eq_zero _ _ _).mpr h
  · intro hnd
    have hpermA : List.Perm (sortTodos l .title .asc) l :=
      List.mergeSort_perm l _
    have hsortedA : (sortTodos l .title .asc).Pairwise
        (fun a b => todoLE .title .asc a b = true) :=
      List.sorted_mergeSort (fun a b c => todoLE_trans .title .asc a b c)
        (fun a b => todoLE_total .title .asc a b) l
    have hndA : ((sortTodos l .title .asc).map
        (fun t => jsToLower t.title)).Nodup :=
      (hpermA.map fun t => jsToLower t.title).nodup_iff.mpr hnd
    have hsortedD : (sortTodos (sortTodos l .title .asc) .title .desc).Pairwise
        (fun a b => todoLE .title .desc a b = true) :=
      List.sorted_mergeSort (fun a b c => todoLE_trans .title .desc a b c)
        (fun a b => todoLE_total .title .desc a b) _
    have hpermD : List.Perm (sortTodos (sortTodos l .title .asc) .title .desc)
        ((sortTodos l .title .asc).reverse) :=
      (List.mergeSort_perm _ _).trans (List.reverse_perm _).symm
    have hrevSorted : ((sortTodos l .title .asc).reverse).Pairwise
        (fun a b => todoLE .title .desc a b = true) := by
      rw [List.pairwise_reverse]
      apply hsortedA.imp
      intro a b hab
      simp only [todoLE, sortKeyCmp, decide_eq_true_eq] at hab ⊢
      rw [jsCompare_nonpos] at hab ⊢
      exact hab
    have hanti : ∀ a b,
        a ∈ sortTodos (sortTodos l .title .asc) .title .desc →
        b ∈ (sortTodos l .title .asc).reverse →
        todoLE .title .desc a b = true → todoLE .title .desc b a = true →
        a = b := by
      intro a b ha hb hab hba
      have ha2 : a ∈ sortTodos l .title .asc := List.mem_mergeSort.mp ha
      have hb2 : b ∈ sortTodos l .title .asc := List.mem_reverse.mp hb
      have hk : jsToLower a.title = jsToLower b.title := by
        simp only [todoLE, sortKeyCmp, decide_eq_true_eq] at hab hba
        rw [jsCompare_nonpos] at hab hba
        exact le_antisymm hba hab
      exact List.inj_on_of_nodup_map hndA ha2 hb2 hk
    exact List.Perm.eq_of_sorted hanti hsortedD hrevSorted hpermD

/-- **C8, counterexample.** Pairwise-distinct titles do **not** guarantee
that descending-after-ascending exactly reverses the order: `"A"` and
`"a"` are distinct titles but equal sort keys (comparison is
case-insensitive), so the stable sort keeps their input order under both
directions instead of reversing it. -/
theorem sortTodos_asc_desc_not_reverse_counterexample :
    ([⟨0, "A", none, false, 0, 0⟩, ⟨1, "a", none, false, 0, 0⟩] :
        List Todo).map Todo.title = ["A", "a"] ∧
    "A" ≠ "a" ∧
    sortTodos (sortTodos
        [⟨0, "A", none, false, 0, 0⟩, ⟨1, "a", none, false, 0, 0⟩]
        .title .asc) .title .desc ≠
      (sortTodos [⟨0, "A", none, false, 0, 0⟩, ⟨1, "a", none, false, 0, 0⟩]
        .title .asc).reverse := by
  have hkey : jsToLower (Todo.title ⟨0, "A", none, false, 0, 0⟩) =
      jsToLower (Todo.title ⟨1, "a", none, false, 0, 0⟩) := by decide
  have hle : ∀ ord, todoLE .title ord
      ⟨0, "A", none, false, 0, 0⟩ ⟨1, "a", none, false, 0, 0⟩ = true := by
    intro ord
    simp only [todoLE, sortKeyCmp, decide_eq_true_eq]
    rw [(jsCompare_eq_zero ord _ _).mpr hkey]
  have hpair : ∀ ord, List.Pairwise
      (fun a b => todoLE .title ord a b = true)
      [⟨0, "A", none, false, 0, 0⟩, ⟨1, "a", none, false, 0, 0⟩] := by
    intro ord
    refine List.Pairwise.cons ?_ (List.pairwise_singleton _ _)
    intro b hb
    rw [List.mem_singleton] at hb
    rw [hb]
    exact hle ord
  have hA : sortTodos
      [⟨0, "A", none, false, 0, 0⟩, ⟨1, "a", none, false, 0, 0⟩]
      .title .asc =
      [⟨0, "A", none, false, 0, 0⟩, ⟨1, "a", none, false, 0, 0⟩] :=
    List.mergeSort_of_sorted (hpair .asc)
  have hD : sortTodos
      [⟨0, "A", none, false, 0, 0⟩, ⟨1, "a", none, false, 0, 0⟩]
      .title .desc =
      [⟨0, "A", none, false, 0, 0⟩, ⟨1, "a", none, false, 0, 0⟩] :=
    List.mergeSort_of_sorted (hpair .desc)
  refine ⟨by decide, by decide, ?_⟩
  rw [hA, hD]
  decide

/-- **C10.** The derived-view helpers never mutate their input array:
at the heap level, `sortTodos` copies its input (`[...todos]`) and sorts
the copy in place, and `filterTodos` / `groupTodosByStatus` build fresh
result arrays — after any of these calls the input array's contents are
unchanged and every returned array is a different array than the input. -/
theorem derived_views_do_not_mutate (h : ArrayHeap) (ref : Nat)
    (sortBy : SortBy) (ord : SortOrder) (filter : TodoFilter)
    (href : ref < h.next) :
    ((sortTodosHeap h ref sortBy ord).1.arrays ref = h.arrays ref ∧
      (sortTodosHeap h ref sortBy ord).2 ≠ ref) ∧
    ((filterTodosHeap h ref filter).1.arrays ref = h.arrays ref ∧
      (filterTodosHeap h ref filter).2 ≠ ref) ∧
    ((groupTodosByStatusHeap h ref).1.arrays ref = h.arrays ref ∧
      (groupTodosByStatusHeap h ref).2.1 ≠ ref ∧
      (groupTodosByStatusHeap h ref).2.2 ≠ ref) := by
  have hne : ref ≠ h.next := by omega
  have hne2 : ref ≠ h.next + 1 := by omega
  refine ⟨⟨?_, ?_⟩, ⟨?_, ?_⟩, ⟨?_, ?_, ?_⟩⟩ <;>
    simp [sortTodosHeap, filterTodosHeap, groupTodosByStatusHeap, heapAlloc,
      heapWrite, hne, hne2] <;>
    omega

/-- Witness for `pgUpdate_updatedAt_spec`: a one-record store created at
time 0, updated at time 5 with `{completed: true}`. -/
theorem pgUpdate_updatedAt_spec_witness :
    (hasRecognizedField ⟨none, none, some true⟩ = true →
      (⟨0, "a", none, true, 0, 5⟩ : Todo).updatedAt = 5) ∧
    (hasRecognizedField ⟨none, none, some true⟩ = false →
      (pgUpdate (pgCreate emptyStore ⟨"a", none, none⟩ 0).1 0
          ⟨none, none, some true⟩ 5).1 =
        (pgCreate emptyStore ⟨"a", none, none⟩ 0).1 ∧
      pgGetById (pgCreate emptyStore ⟨"a", none, none⟩ 0).1 0 =
        some ⟨0, "a", none, true, 0, 5⟩) ∧
    ∃ r0, (pgCreate emptyStore ⟨"a", none, none⟩ 0).1.rows.find?
        (fun r => r.id == 0) = some r0 ∧
      r0.updatedAt ≤ (⟨0, "a", none, true, 0, 5⟩ : Todo).updatedAt ∧
      (⟨0, "a", none, true, 0, 5⟩ : Todo).updatedAt ≤ 5 :=
  pgUpdate_updatedAt_spec (pgCreate emptyStore ⟨"a", none, none⟩ 0).1 0
    ⟨none, none, some true⟩ 5 (by decide) ⟨0, "a", none, true, 0, 5⟩
    (by decide)

/-- Witness for `validate_rejects_whitespace_title` at `title = "   "`. -/
theorem validate_rejects_whitespace_title_witness :
    (validateTodoInput (some "   ") none).isValid = false :=
  (validate_rejects_whitespace_title "   " (by decide) emptyStore 0).1

/-- Witness for `description_empty_normalized_to_absent` on the empty
store with `description = ""`. -/
theorem description_empty_normalized_to_absent_witness :
    (pgCreate emptyStore ⟨"a", some "", none⟩ 0).2.description = none :=
  (description_empty_normalized_to_absent emptyStore ⟨"a", some "", none⟩ 0
    (by decide) rfl).1

/-- Witness for `create_defaults_spec` on the empty store. -/
theorem create_defaults_spec_witness :
    (pgCreate emptyStore ⟨"a", none, none⟩ 0).2.completed = false ∧
    (pgCreate emptyStore ⟨"a", none, none⟩ 0).2.id ∉ emptyStore.issued :=
  ⟨(create_defaults_spec emptyStore ⟨"a", none, none⟩ 0 (by decide)).1,
   (create_defaults_spec emptyStore ⟨"a", none, none⟩ 0 (by decide)).2.2.1⟩

/-- Witness for `pgUpdate_frame_spec`: updating only the title leaves id,
createdAt, description and completed untouched. -/
theorem pgUpdate_frame_spec_witness :
    ∃ r0 r1,
      (pgCreate emptyStore ⟨"a", some "d", none⟩ 0).1.rows.find?
          (fun r => r.id == 0) = some r0 ∧
      (pgUpdate (pgCreate emptyStore ⟨"a", some "d", none⟩ 0).1 0
          ⟨some "b", none, none⟩ 5).1.rows.find?
          (fun r => r.id == 0) = some r1 ∧
      (⟨0, "b", some "d", false, 0, 5⟩ : Todo) = viewRow r1 ∧
      r1.id = r0.id ∧ r1.createdAt = r0.createdAt ∧
      ((some "b" : Option String) = none → r1.title = r0.title) ∧
      ((none : Option String) = none → r1.description = r0.description) ∧
      ((none : Option Bool) = none → r1.completed = r0.completed) ∧
      (∀ r ∈ (pgCreate emptyStore ⟨"a", some "d", none⟩ 0).1.rows,
        r.id ≠ 0 →
        r ∈ (pgUpdate (pgCreate emptyStore ⟨"a", some "d", none⟩ 0).1 0
          ⟨some "b", none, none⟩ 5).1.rows) :=
  pgUpdate_frame_spec (pgCreate emptyStore ⟨"a", some "d", none⟩ 0).1 0
    ⟨some "b", none, none⟩ 5 ⟨0, "b", some "d", false, 0, 5⟩ (by decide)

/-- Witness for `pgDelete_spec`: deleting the only record succeeds and the
record is gone. -/
theorem pgDelete_spec_witness :
    (pgDelete (pgCreate emptyStore ⟨"a", none, none⟩ 0).1 0).2 = true ∧
    pgGetById (pgDelete (pgCreate emptyStore ⟨"a", none, none⟩ 0).1 0).1 0
      = none := by
  have h := pgDelete_spec (pgCreate emptyStore ⟨"a", none, none⟩ 0).1 0
  exact ⟨h.1.mpr ⟨⟨0, "a", none, false, 0, 0⟩, by decide, rfl⟩, h.2.1⟩

/-- Witness for `sortTodos_stable_and_reverses`: two distinct lower-cased
titles, so descending-after-ascending reverses. -/
theorem sortTodos_stable_and_reverses_witness :
    sortTodos (sortTodos
        [⟨0, "b", none, false, 0, 0⟩, ⟨1, "a", none, false, 0, 0⟩]
        .title .asc) .title .desc =
      (sortTodos [⟨0, "b", none, false, 0, 0⟩, ⟨1, "a", none, false, 0, 0⟩]
        .title .asc).reverse :=
  (sortTodos_stable_and_reverses _).2.2 (by decide)

/-- Witness for `calculateTodoStats_spec`: a fully completed singleton
list reports a 100% completion rate. -/
theorem calculateTodoStats_spec_witness :
    (calculateTodoStats [⟨0, "a", none, true, 0, 0⟩]).completionRate = 100 :=
  (calculateTodoStats_spec [⟨0, "a", none, true, 0, 0⟩]).2.2.2.2.2.2
    (by decide) (by decide)

/-- Witness for `derived_views_do_not_mutate` on a one-array heap. -/
theorem derived_views_do_not_mutate_witness :
    (sortTodosHeap ⟨fun _ => [], 1⟩ 0 .createdAt .desc).1.arrays 0 =
      (⟨fun _ => [], 1⟩ : ArrayHeap).arrays 0 ∧
    (sortTodosHeap ⟨fun _ => [], 1⟩ 0 .createdAt .desc).2 ≠ 0 :=
  (derived_views_do_not_mutate ⟨fun _ => [], 1⟩ 0 .createdAt .desc
    ⟨none, none⟩ (by decide)).1
